import Mathlib

/-!
Shallow embedding of the material-aggregation core of
`backend/app/services/ifc_loader.py` together with the skip-set storage of
`backend/app/services/file_storage.py` and the exception behaviour of the
element loop.

Modelling conventions.
Python `None` becomes `Option.none`.  Numeric quantity values (areas,
volumes, densities, weights) are modelled with exact integer arithmetic
(`Int`); every numeric scenario appearing in the claims is integer-valued
and none of the settled properties depends on fractional or floating-point
rounding behaviour.  An opened IFC model is represented by the list of
parsed `IfcElement` entities that `get_ifcElements` (an external
`ifcopenshell` parse of the file path) would return, so the embedded
`process_ifc_materials` takes that element list in place of the file path.
Python dicts are insertion-ordered association lists.
-/

/-- One entry of an `IfcElementQuantity.Quantities` list.  `is_a` holds the
entity type that the source tests with `quantity.is_a("IfcQuantityArea")` or
`quantity.is_a("IfcQuantityVolume")`; `AreaValue` and `VolumeValue` are the
attributes read after the corresponding type test succeeds. -/
structure IfcQuantity where
  is_a : String
  AreaValue : Int := 0
  VolumeValue : Int := 0
deriving DecidableEq

/-- The `RelatingPropertyDefinition` of a property relationship: its entity
type (tested against `"IfcElementQuantity"`) and its `Quantities` list. -/
structure IfcPropDef where
  is_a : String
  Quantities : List IfcQuantity := []
deriving DecidableEq

/-- One entry of an element's `IsDefinedBy` list; its `is_a` is tested
against `"IfcRelDefinesByProperties"` before the target definition is read. -/
structure IfcRelDefines where
  is_a : String
  RelatingPropertyDefinition : IfcPropDef
deriving DecidableEq

/-- An `IfcElement` as seen through the attribute accesses and
`ifcopenshell` introspection calls the source performs.

`materialName` is the value of the external selector query
`get_element_value(element, "material.Name")`; that query yields a single
optional string (the `Name` of the element's resolved material object),
never one name per attached material.  `materials` lists the labels of all
materials attached to the element and `materialCategory` is the `Category`
attribute of its material; these two fields belong to the specification's
vocabulary and are read by no code path in `ifc_loader.py`.

`raises` marks an element whose property or material access raises a
Python exception when touched (the model object backing it is broken); the
pure functions below give the semantics of a run in which no touched
element raises, and `process_ifc_materialsE` makes the propagation of such
an exception explicit. -/
structure IfcElement where
  GlobalId : String
  expressId : Nat := 0
  is_a : String := "IfcWall"
  IsDefinedBy : List IfcRelDefines := []
  psets : List (String × List (String × Int)) := []
  materialName : Option String := none
  materials : List String := []
  materialCategory : Option String := none
  raises : Bool := false
deriving DecidableEq

/-- Truthiness of an optional numeric value under Python rules: `None` and
`0` are falsy, every other number is truthy. -/
def truthyQ : Option Int → Bool
  | none => false
  | some v => v != 0

/-- Python's `a or b` on optional numeric values: `a` when truthy,
otherwise `b` (returned as-is, even when `b` itself is falsy). -/
def pyOr (a b : Option Int) : Option Int := if truthyQ a then a else b

/-- Dictionary lookup `d.get(k)`: the value stored at the key, if any. -/
def dget (d : List (String × Int)) (k : String) : Option Int :=
  (d.find? (fun p => p.1 == k)).map (fun p => p.2)

/-- Python's `s.startswith(pre)` on the underlying character lists. -/
def charsPre : List Char → List Char → Bool
  | [], _ => true
  | _ :: _, [] => false
  | a :: as, b :: bs => a == b && charsPre as bs

/-- Python's `s.startswith(pre)` (ordinal, by code point). -/
def pyStartsWith (s pre : String) : Bool := charsPre pre.data s.data

/-- Loop body over one entry of `prop_def.Quantities`
(ifc_loader.py lines 40 to 47): the first `IfcQuantityArea` encountered
while `area` is still `None` sets the area, the first `IfcQuantityVolume`
encountered while `volume` is still `None` sets the volume, and neither is
ever overwritten. -/
def quantStep (st : Option Int × Option Int) (q : IfcQuantity) :
    Option Int × Option Int :=
  (if q.is_a == "IfcQuantityArea" && st.1.isNone then some q.AreaValue else st.1,
   if q.is_a == "IfcQuantityVolume" && st.2.isNone then some q.VolumeValue else st.2)

/-- Loop body over one entry of `element.IsDefinedBy`
(ifc_loader.py lines 35 to 47). -/
def defStep (st : Option Int × Option Int) (d : IfcRelDefines) :
    Option Int × Option Int :=
  if d.is_a == "IfcRelDefinesByProperties" then
    if d.RelatingPropertyDefinition.is_a == "IfcElementQuantity" then
      d.RelatingPropertyDefinition.Quantities.foldl quantStep st
    else st
  else st

/-- The area probe of the `Qto_` fallback (ifc_loader.py lines 56 to 67):
the Python `or`-chain over the ten property lookups, whose last operand is
the raw `OuterSurfaceArea` lookup. -/
def areaProbe (pd : List (String × Int)) : Option Int :=
  pyOr (dget pd "NetSurfaceArea") (pyOr (dget pd "GrossSurfaceArea")
    (pyOr (dget pd "NetArea") (pyOr (dget pd "GrossArea")
    (pyOr (dget pd "NetSideArea") (pyOr (dget pd "GrossSideArea")
    (pyOr (dget pd "NetFloorArea") (pyOr (dget pd "GrossFloorArea")
    (pyOr (dget pd "Area") (dget pd "OuterSurfaceArea")))))))))

/-- The volume probe of the `Qto_` fallback (ifc_loader.py line 70):
`pset_data.get("NetVolume") or pset_data.get("GrossVolume")`. -/
def volumeProbe (pd : List (String × Int)) : Option Int :=
  pyOr (dget pd "NetVolume") (dget pd "GrossVolume")

/-- Loop body over one pset (ifc_loader.py lines 53 to 70).  The source
also guards with `isinstance(pset_data, dict)`; `get_psets` returns a dict
per pset, so that guard is always true and is not modelled. -/
def psetStep (st : Option Int × Option Int) (p : String × List (String × Int)) :
    Option Int × Option Int :=
  if pyStartsWith p.1 "Qto_" then
    (if st.1.isNone then areaProbe p.2 else st.1,
     if st.2.isNone then volumeProbe p.2 else st.2)
  else st

/-- Translation of `get_ifcElement_quantities` (ifc_loader.py lines 28 to
72): method 1 walks `IsDefinedBy`; method 2 runs only when at least one
value is still `None` and walks the element's psets.  The source's
`hasattr(element, "IsDefinedBy")` guard is modelled by the list being
empty when the attribute is absent. -/
def get_ifcElement_quantities (e : IfcElement) : Option Int × Option Int :=
  let st := e.IsDefinedBy.foldl defStep (none, none)
  if st.1.isNone || st.2.isNone then e.psets.foldl psetStep st else st

/-- Truthiness of an optional string under Python rules: `None` and the
empty string are falsy. -/
def truthyS : Option String → Bool
  | none => false
  | some s => s != ""

/-- Translation of `get_element_material_Name` (ifc_loader.py lines 75 to
79): the selector value when truthy, else `None`. -/
def get_element_material_Name (e : IfcElement) : Option String :=
  if truthyS e.materialName then e.materialName else none

/-- Translation of `get_element_class` (ifc_loader.py lines 82 to 84);
`element.is_a()` always returns the entity type string, which is falsy
only as the empty string. -/
def get_element_class (e : IfcElement) : Option String :=
  if e.is_a != "" then some e.is_a else none

/-- Translation of `get_element_group_key` (ifc_loader.py lines 87 to
102): `(0, material_name, class_name)` for an element with a truthy
material name, `(1, class_name, class_name)` otherwise, where
`class_name` is `element.is_a() or "Unassigned"`. -/
def get_element_group_key (e : IfcElement) : Nat × String × String :=
  let class_name := if e.is_a != "" then e.is_a else "Unassigned"
  if truthyS e.materialName then (0, e.materialName.getD "", class_name)
  else (1, class_name, class_name)

/-- The dictionary key an element is grouped under: the middle component
of its group key (`group_name` at ifc_loader.py line 144). -/
def group_name (e : IfcElement) : String := (get_element_group_key e).2.1

/-- Accumulator record for one material group while the element loop runs:
the fields created by the `defaultdict` initialiser (ifc_loader.py lines
123 to 135).  The initialiser's `None` placeholders for `materialGroup`
and `elementClass` are modelled by `""` because the loop overwrites both
before they are ever read.  `totalWeight` is created by the initialiser
but only computed during finalisation. -/
structure GroupAcc where
  materialGroup : String := ""
  hasMaterial : Nat := 1
  elementClass : String := ""
  elementCount : Nat := 0
  totalArea : Int := 0
  totalVolume : Int := 0
  totalWeight : Int := 0
  missingQuantities : Bool := false
  elementIds : List String := []
deriving DecidableEq

/-- Loop body of `process_ifc_materials` for one element (ifc_loader.py
lines 137 to 162), acting on the group record fetched (or freshly created)
for the element's `group_name`. -/
def stepGroup (g : GroupAcc) (e : IfcElement) : GroupAcc :=
  let q := get_ifcElement_quantities e
  let k := get_element_group_key e
  let g1 : GroupAcc :=
    { g with materialGroup := k.2.1, hasMaterial := k.1, elementClass := k.2.2,
             elementIds := g.elementIds ++ [e.GlobalId],
             elementCount := g.elementCount + 1 }
  let g2 : GroupAcc :=
    match q.1 with
    | some a => { g1 with totalArea := g1.totalArea + a }
    | none => { g1 with missingQuantities := true }
  match q.2 with
  | some v => { g2 with totalVolume := g2.totalVolume + v }
  | none => { g2 with missingQuantities := true }

/-- Lookup `groups[group_name]` in the insertion-ordered association list
modelling the Python dict. -/
def lookupG (gs : List (String × GroupAcc)) (k : String) : Option GroupAcc :=
  (gs.find? (fun p => p.1 == k)).map (fun p => p.2)

/-- Store an updated group back under its key: replace the existing entry
in place, or append a new one — the mutation semantics of a Python dict,
which preserves insertion order. -/
def upsert : List (String × GroupAcc) → String → GroupAcc → List (String × GroupAcc)
  | [], k, g => [(k, g)]
  | p :: ps, k, g => if p.1 == k then (k, g) :: ps else p :: upsert ps k g

/-- One iteration of the element loop on the whole group dictionary. -/
def addElement (gs : List (String × GroupAcc)) (e : IfcElement) :
    List (String × GroupAcc) :=
  upsert gs (group_name e) (stepGroup ((lookupG gs (group_name e)).getD {}) e)

/-- The group dictionary after the element loop (ifc_loader.py lines 137
to 162). -/
def buildGroups (es : List IfcElement) : List (String × GroupAcc) :=
  es.foldl addElement []

/-- One record of the list returned by `process_ifc_materials`
(ifc_loader.py lines 176 to 189). -/
structure MaterialGroupOut where
  materialGroup : String
  hasMaterial : Nat
  elementClass : String
  elementCount : Nat
  totalArea : Option Int
  totalVolume : Option Int
  density : Int
  totalWeight : Option Int
  missingQuantities : Bool
  elementIds : List String
deriving DecidableEq

/-- Finalisation of one accumulated group (ifc_loader.py lines 164 to
189): a total is reported only when the accumulated sum is strictly
positive, and the weight only when the volume is reported. -/
def finalize (density : Int) (g : GroupAcc) : MaterialGroupOut :=
  let total_area := if g.totalArea > 0 then some g.totalArea else none
  let total_volume := if g.totalVolume > 0 then some g.totalVolume else none
  { materialGroup := g.materialGroup, hasMaterial := g.hasMaterial,
    elementClass := g.elementClass, elementCount := g.elementCount,
    totalArea := total_area, totalVolume := total_volume,
    density := density,
    totalWeight :=
      match total_volume with
      | some v => some (v * density)
      | none => none,
    missingQuantities := g.missingQuantities, elementIds := g.elementIds }

/-- Sort key of a result record (ifc_loader.py lines 192 to 198): the
Python tuple `(hasMaterial, materialGroup, elementClass)` under
lexicographic tuple comparison, the strings compared ordinally (by code
point, here as their character lists). -/
def pyKey (r : MaterialGroupOut) : ℕ ×ₗ (List Char ×ₗ List Char) :=
  toLex (r.hasMaterial, toLex (r.materialGroup.data, r.elementClass.data))

/-- Boolean comparator realising Python's ascending tuple sort order. -/
def keyLe (a b : MaterialGroupOut) : Bool := decide (pyKey a ≤ pyKey b)

/-- Insert a record into an already sorted list, before the first entry it
compares less-or-equal to. -/
def insertSorted (a : MaterialGroupOut) : List MaterialGroupOut → List MaterialGroupOut
  | [] => [a]
  | b :: bs => if keyLe a b then a :: b :: bs else b :: insertSorted a bs

/-- Stable ascending sort by `keyLe`, modelling Python's `list.sort`
(a stable ascending sort by the key tuple). -/
def pySort : List MaterialGroupOut → List MaterialGroupOut
  | [] => []
  | a :: as => insertSorted a (pySort as)

/-- Translation of `process_ifc_materials` (ifc_loader.py lines 105 to
200) over the parsed element list. -/
def process_ifc_materials (es : List IfcElement) (default_density : Int := 2400) :
    List MaterialGroupOut :=
  pySort ((buildGroups es).map (fun p => finalize default_density p.2))

/-- One loop iteration in a run where a raising element aborts the call:
the source wraps no per-element work in `try`/`except`, so a Python
exception raised by `element` access propagates out of
`process_ifc_materials`. -/
def addElementE (gs : List (String × GroupAcc)) (e : IfcElement) :
    Except Unit (List (String × GroupAcc)) :=
  if e.raises then Except.error () else Except.ok (addElement gs e)

/-- `process_ifc_materials` with Python exception propagation made
explicit: the element loop stops at the first raising element and the
exception escapes to the caller. -/
def process_ifc_materialsE (es : List IfcElement) (default_density : Int := 2400) :
    Except Unit (List MaterialGroupOut) :=
  (es.foldlM addElementE []).map
    (fun gs => pySort (gs.map (fun p => finalize default_density p.2)))

/-- Per-file metadata record of `FileStorage`, restricted to the field the
claims touch: `skipped_ids` is absent until `save_skipped_ids` has run for
the file (file_storage.py lines 283 to 293). -/
structure FileMeta where
  skipped_ids : Option (List Nat) := none
deriving DecidableEq

/-- Translation of `FileStorage.get_skipped_ids` (file_storage.py lines
295 to 305): `self._metadata.get(file_id, {}).get("skipped_ids", [])`. -/
def get_skipped_ids (metadata : List (String × FileMeta)) (file_id : String) :
    List Nat :=
  (((metadata.find? (fun p => p.1 == file_id)).map (fun p => p.2)).bind
     (fun m => m.skipped_ids)).getD []

/-- Stated from the specification, for comparison with
`get_element_group_key`: the fallback label for an element with no
resolvable material is "the material's own `Category` attribute if
present, otherwise the element's type/class tag, otherwise the literal
`"Unassigned"`". -/
def specFallbackLabel (e : IfcElement) : String :=
  match e.materialCategory with
  | some c => c
  | none => if e.is_a != "" then e.is_a else "Unassigned"

/-- The area probe keys of the `Qto_` fallback, in source order. -/
def areaProbeKeys : List String :=
  ["NetSurfaceArea", "GrossSurfaceArea", "NetArea", "GrossArea",
   "NetSideArea", "GrossSideArea", "NetFloorArea", "GrossFloorArea",
   "Area", "OuterSurfaceArea"]

/-- The volume probe keys of the `Qto_` fallback, in source order. -/
def volumeProbeKeys : List String := ["NetVolume", "GrossVolume"]

/-- First non-falsy value among the probed keys of one pset; when every
probed value is absent or falsy, the raw lookup of the chain's last key
(which may be a present falsy value such as `0`). -/
def probeFirstTruthy (pd : List (String × Int)) (keys : List String)
    (lastKey : String) : Option Int :=
  ((keys.map (dget pd)).find? truthyQ).getD (dget pd lastKey)

/-- The `Qto_`-prefixed psets of an element, in pset order. -/
def qtoPsets (e : IfcElement) : List (String × List (String × Int)) :=
  e.psets.filter (fun p => pyStartsWith p.1 "Qto_")

/-- The quantity entries the primary path scans, in scan order: the
`Quantities` of every `IfcRelDefinesByProperties` relationship whose
target is an `IfcElementQuantity`. -/
def scanQ (ds : List IfcRelDefines) : List IfcQuantity :=
  ds.foldr
    (fun d acc =>
      if d.is_a == "IfcRelDefinesByProperties" &&
         d.RelatingPropertyDefinition.is_a == "IfcElementQuantity" then
        d.RelatingPropertyDefinition.Quantities ++ acc
      else acc) []

/-- Area of the primary path: the first area-typed quantity entry among
the scanned quantities, never overwritten once found. -/
def method1Area (e : IfcElement) : Option Int :=
  ((scanQ e.IsDefinedBy).find? (fun q => q.is_a == "IfcQuantityArea")).map
    (fun q => q.AreaValue)

/-- Volume of the primary path: the first volume-typed quantity entry. -/
def method1Volume (e : IfcElement) : Option Int :=
  ((scanQ e.IsDefinedBy).find? (fun q => q.is_a == "IfcQuantityVolume")).map
    (fun q => q.VolumeValue)

/-- Fallback area over the psets: the first `Qto_` pset whose probe yields
a present (possibly falsy) value wins, and later psets are not consulted. -/
def fallbackAreaDescribed (e : IfcElement) : Option Int :=
  (((qtoPsets e).map
      (fun p => probeFirstTruthy p.2 areaProbeKeys "OuterSurfaceArea")).find?
    (fun o => o.isSome)).join

/-- Fallback volume over the psets, analogous to `fallbackAreaDescribed`. -/
def fallbackVolumeDescribed (e : IfcElement) : Option Int :=
  (((qtoPsets e).map
      (fun p => probeFirstTruthy p.2 volumeProbeKeys "GrossVolume")).find?
    (fun o => o.isSome)).join

/-- Stated from the specification, for comparison with the fallback path
of `get_ifcElement_quantities`: scan the `Qto_` psets and take the first
present non-falsy value, probing the preference-ordered key list within
each pset; a value that is absent or falsy is never taken. -/
def specAreaFallback (e : IfcElement) : Option Int :=
  (qtoPsets e).foldr
    (fun p acc => ((areaProbeKeys.map (dget p.2)).find? truthyQ).getD acc) none

/-- The elements of a run that the loop files under group key `k`. -/
def contrib (es : List IfcElement) (k : String) : List IfcElement :=
  es.filter (fun e => group_name e == k)

/-- The arithmetic area contribution of one element: its resolved area,
with `None` contributing nothing to the running sum. -/
def areaOf (e : IfcElement) : Int := ((get_ifcElement_quantities e).1).getD 0

/-- The arithmetic volume contribution of one element. -/
def volumeOf (e : IfcElement) : Int := ((get_ifcElement_quantities e).2).getD 0

/-- Total number of occurrences of one identifier across all groups'
`elementIds` of a result list. -/
def totalIdOccurrences (res : List MaterialGroupOut) (s : String) : Nat :=
  (res.map (fun g => g.elementIds.count s)).sum

/-- Total number of occurrences of one identifier across all groups'
`elementIds` of the group dictionary. -/
def sumIdCounts (gs : List (String × GroupAcc)) (s : String) : Nat :=
  (gs.map (fun p => p.2.elementIds.count s)).sum

/-- Quantity entry carrying an area value, as produced by a model whose
element has an `IfcElementQuantity` with an `IfcQuantityArea`. -/
def areaQuantity (v : Int) : IfcQuantity :=
  { is_a := "IfcQuantityArea", AreaValue := v }

/-- Quantity entry carrying a volume value. -/
def volumeQuantity (v : Int) : IfcQuantity :=
  { is_a := "IfcQuantityVolume", VolumeValue := v }

/-- A property relationship wrapping an `IfcElementQuantity` holding the
given quantity entries. -/
def quantityRel (qs : List IfcQuantity) : IfcRelDefines :=
  { is_a := "IfcRelDefinesByProperties",
    RelatingPropertyDefinition := { is_a := "IfcElementQuantity", Quantities := qs } }

/-- A bare wall element: no quantities, no material. -/
def wallA : IfcElement := { GlobalId := "A" }

/-- An element resolving no area and a volume of `5`. -/
def volOnlyElem : IfcElement :=
  { GlobalId := "V", IsDefinedBy := [quantityRel [volumeQuantity 5]] }

/-- An element whose only structured quantity is a negative area value. -/
def negAreaElem : IfcElement :=
  { GlobalId := "N", IsDefinedBy := [quantityRel [areaQuantity (-1)]] }

/-- An element resolving area `0` and volume `0` through structured
quantities (present, zero-valued). -/
def zeroQuantElem : IfcElement :=
  { GlobalId := "Z", IsDefinedBy := [quantityRel [areaQuantity 0, volumeQuantity 0]] }

/-- An element whose first `Qto_` pset holds only a present falsy
`OuterSurfaceArea` of `0` while a later `Qto_` pset holds a non-falsy
`NetArea` of `5`. -/
def falsyProbeElem : IfcElement :=
  { GlobalId := "F",
    psets := [("Qto_WallBaseQuantities", [("OuterSurfaceArea", 0)]),
              ("Qto_WallCustom", [("NetArea", 5)])] }

/-- An element whose model access raises a Python exception. -/
def raisingElem : IfcElement := { GlobalId := "R", raises := true }

/-- A beam with two attached materials, area `10` and volume `2`; the
external selector resolves its `material.Name` to the first associated
material's name. -/
def twoMaterialElem : IfcElement :=
  { GlobalId := "M", is_a := "IfcBeam",
    IsDefinedBy := [quantityRel [areaQuantity 10, volumeQuantity 2]],
    materials := ["Concrete", "Steel"], materialName := some "Concrete" }

/-- A wall with no resolvable material name whose material carries the
`Category` attribute `"Masonry"`. -/
def categoryElem : IfcElement :=
  { GlobalId := "C", materialName := none, materialCategory := some "Masonry" }

/-- A wall whose express id `42` is recorded in the skip set of its file. -/
def skippedWall : IfcElement := { GlobalId := "W1", expressId := 42 }

/-- Stored metadata of a file whose mesh export skipped express id `42`. -/
def skipMeta : List (String × FileMeta) := [("f1", { skipped_ids := some [42] })]


/-- Expected summary row for a run over the bare wall. -/
def wallAGroup : MaterialGroupOut :=
  { materialGroup := "IfcWall", hasMaterial := 1, elementClass := "IfcWall",
    elementCount := 1, totalArea := none, totalVolume := none, density := 2400,
    totalWeight := none, missingQuantities := true, elementIds := ["A"] }

/-- Expected summary row for a run over the negative-area element. -/
def negAreaGroup : MaterialGroupOut :=
  { materialGroup := "IfcWall", hasMaterial := 1, elementClass := "IfcWall",
    elementCount := 1, totalArea := none, totalVolume := none, density := 2400,
    totalWeight := none, missingQuantities := true, elementIds := ["N"] }

/-- Expected summary row for a run over the zero-quantity element. -/
def zeroQuantGroup : MaterialGroupOut :=
  { materialGroup := "IfcWall", hasMaterial := 1, elementClass := "IfcWall",
    elementCount := 1, totalArea := none, totalVolume := none, density := 2400,
    totalWeight := none, missingQuantities := false, elementIds := ["Z"] }

/-- The area component of `psetStep`, used to reason about the pset fold
componentwise. -/
def psetStepA (a : Option Int) (p : String × List (String × Int)) : Option Int :=
  if pyStartsWith p.1 "Qto_" then (if a.isNone then areaProbe p.2 else a) else a

/-- The volume component of `psetStep`. -/
def psetStepV (v : Option Int) (p : String × List (String × Int)) : Option Int :=
  if pyStartsWith p.1 "Qto_" then (if v.isNone then volumeProbe p.2 else v) else v

/-- The comparator is transitive (inherited from the lexicographic order). -/
lemma keyLe_trans (a b c : MaterialGroupOut) :
    keyLe a b = true → keyLe b c = true → keyLe a c = true := by
  simp only [keyLe, decide_eq_true_eq]
  exact le_trans

/-- The comparator is total. -/
lemma keyLe_total (a b : MaterialGroupOut) : keyLe a b = true ∨ keyLe b a = true := by
  simp only [keyLe, decide_eq_true_eq]
  exact le_total _ _

/-- Membership in an insertion step. -/
lemma mem_insertSorted {x a : MaterialGroupOut} {l : List MaterialGroupOut} :
    x ∈ insertSorted a l ↔ x = a ∨ x ∈ l := by
  induction l with
  | nil => simp [insertSorted]
  | cons b bs ih =>
    by_cases h : keyLe a b
    · simp [insertSorted, h]
    · simp [insertSorted, h, ih]
      tauto

/-- An insertion step permutes to a cons. -/
lemma perm_insertSorted (a : MaterialGroupOut) (l : List MaterialGroupOut) :
    (insertSorted a l).Perm (a :: l) := by
  induction l with
  | nil => exact List.Perm.refl _
  | cons b bs ih =>
    by_cases h : keyLe a b
    · simp [insertSorted, h]
    · simp only [insertSorted, h, if_neg]
      exact List.Perm.trans (List.Perm.cons b ih) (List.Perm.swap a b bs)

/-- The embedded sort permutes its input. -/
lemma perm_pySort (l : List MaterialGroupOut) : (pySort l).Perm l := by
  induction l with
  | nil => exact List.Perm.refl _
  | cons a as ih =>
    exact List.Perm.trans (perm_insertSorted a (pySort as)) (List.Perm.cons a ih)

/-- Membership is preserved by the embedded sort. -/
lemma mem_pySort {x : MaterialGroupOut} {l : List MaterialGroupOut} :
    x ∈ pySort l ↔ x ∈ l := (perm_pySort l).mem_iff

/-- Inserting into a sorted list keeps it sorted. -/
lemma pairwise_insertSorted {a : MaterialGroupOut} {l : List MaterialGroupOut}
    (h : l.Pairwise (fun x y => keyLe x y = true)) :
    (insertSorted a l).Pairwise (fun x y => keyLe x y = true) := by
  induction l with
  | nil => simp [insertSorted]
  | cons b bs ih =>
    rcases List.pairwise_cons.mp h with ⟨hb, hbs⟩
    by_cases hab : keyLe a b
    · simp only [insertSorted, hab, if_pos]
      refine List.pairwise_cons.mpr ⟨?_, h⟩
      intro x hx
      rcases List.mem_cons.mp hx with rfl | hx
      · exact hab
      · exact keyLe_trans a b x hab (hb x hx)
    · have hba : keyLe b a = true := (keyLe_total a b).resolve_left hab
      simp only [insertSorted, hab, if_neg, Bool.not_eq_true]
      refine List.pairwise_cons.mpr ⟨?_, ih hbs⟩
      intro x hx
      rcases mem_insertSorted.mp hx with rfl | hx
      · exact hba
      · exact hb x hx

/-- The embedded sort produces a list sorted by the comparator. -/
lemma pairwise_pySort (l : List MaterialGroupOut) :
    (pySort l).Pairwise (fun x y => keyLe x y = true) := by
  induction l with
  | nil => simp [pySort]
  | cons a as ih => exact pairwise_insertSorted ih

/-- A right fold of the Python `or` returns the first truthy operand, else
the final operand. -/
lemma foldr_pyOr (l : List (Option Int)) (b : Option Int) :
    l.foldr pyOr b = (l.find? truthyQ).getD b := by
  induction l with
  | nil => rfl
  | cons a l ih =>
    cases h : truthyQ a <;> simp [pyOr, List.find?, h, ih]

/-- Appending the default as a last probe does not change the probe result. -/
lemma find?_concat_getD (l : List (Option Int)) (x : Option Int) :
    ((l ++ [x]).find? truthyQ).getD x = (l.find? truthyQ).getD x := by
  rw [List.find?_append]
  cases h : l.find? truthyQ with
  | some v => simp [Option.or]
  | none =>
    cases hx : truthyQ x <;> simp [Option.or, List.find?, hx]

/-- The source's area `or`-chain takes the first non-falsy probed value,
and otherwise the raw `OuterSurfaceArea` lookup. -/
lemma areaProbe_eq (pd : List (String × Int)) :
    areaProbe pd = probeFirstTruthy pd areaProbeKeys "OuterSurfaceArea" := by
  have h : areaProbe pd =
      ([dget pd "NetSurfaceArea", dget pd "GrossSurfaceArea", dget pd "NetArea",
        dget pd "GrossArea", dget pd "NetSideArea", dget pd "GrossSideArea",
        dget pd "NetFloorArea", dget pd "GrossFloorArea",
        dget pd "Area"]).foldr pyOr (dget pd "OuterSurfaceArea") := rfl
  have hmap : areaProbeKeys.map (dget pd) =
      [dget pd "NetSurfaceArea", dget pd "GrossSurfaceArea", dget pd "NetArea",
       dget pd "GrossArea", dget pd "NetSideArea", dget pd "GrossSideArea",
       dget pd "NetFloorArea", dget pd "GrossFloorArea",
       dget pd "Area"] ++ [dget pd "OuterSurfaceArea"] := rfl
  rw [h, foldr_pyOr]
  unfold probeFirstTruthy
  rw [hmap, find?_concat_getD]

/-- The source's volume `or`-chain, in the same corrected shape. -/
lemma volumeProbe_eq (pd : List (String × Int)) :
    volumeProbe pd = probeFirstTruthy pd volumeProbeKeys "GrossVolume" := by
  have h : volumeProbe pd =
      ([dget pd "NetVolume"]).foldr pyOr (dget pd "GrossVolume") := rfl
  have hmap : volumeProbeKeys.map (dget pd) =
      [dget pd "NetVolume"] ++ [dget pd "GrossVolume"] := rfl
  rw [h, foldr_pyOr]
  unfold probeFirstTruthy
  rw [hmap, find?_concat_getD]

/-- Mapping distributes over the eager option choice. -/
lemma optmap_or {α β : Type} (f : α → β) (a b : Option α) :
    (a.or b).map f = (a.map f).or (b.map f) := by
  cases a <;> simp [Option.or]

/-- The area component of the quantity fold over one `Quantities` list is
the previous value, or else the first area-typed entry. -/
lemma quantFold_fst (qs : List IfcQuantity) (st : Option Int × Option Int) :
    (qs.foldl quantStep st).1 =
      st.1.or (((qs.find? (fun q => q.is_a == "IfcQuantityArea")).map
        (fun q => q.AreaValue))) := by
  induction qs generalizing st with
  | nil => simp [Option.or_none]
  | cons q qs ih =>
    rw [List.foldl_cons, ih]
    cases hst : st.1 with
    | some a => simp [quantStep, hst, Option.or]
    | none =>
      by_cases hq : q.is_a == "IfcQuantityArea"
      · simp [quantStep, hst, hq, List.find?, Option.or]
      · simp [quantStep, hst, hq, List.find?, Option.or]

/-- Volume component, analogous to `quantFold_fst`. -/
lemma quantFold_snd (qs : List IfcQuantity) (st : Option Int × Option Int) :
    (qs.foldl quantStep st).2 =
      st.2.or (((qs.find? (fun q => q.is_a == "IfcQuantityVolume")).map
        (fun q => q.VolumeValue))) := by
  induction qs generalizing st with
  | nil => simp [Option.or_none]
  | cons q qs ih =>
    rw [List.foldl_cons, ih]
    cases hst : st.2 with
    | some a => simp [quantStep, hst, Option.or]
    | none =>
      by_cases hq : q.is_a == "IfcQuantityVolume"
      · simp [quantStep, hst, hq, List.find?, Option.or]
      · simp [quantStep, hst, hq, List.find?, Option.or]

/-- The area component of the fold over `IsDefinedBy` is the previous
value, or else the first area-typed entry of the scanned quantities. -/
lemma defFold_fst (ds : List IfcRelDefines) (st : Option Int × Option Int) :
    (ds.foldl defStep st).1 =
      st.1.or (((scanQ ds).find? (fun q => q.is_a == "IfcQuantityArea")).map
        (fun q => q.AreaValue)) := by
  induction ds generalizing st with
  | nil => simp [scanQ, Option.or_none]
  | cons d ds ih =>
    rw [List.foldl_cons, ih]
    cases h1 : (d.is_a == "IfcRelDefinesByProperties") with
    | true =>
      cases h2 : (d.RelatingPropertyDefinition.is_a == "IfcElementQuantity") with
      | true =>
        have hscan : scanQ (d :: ds) =
            d.RelatingPropertyDefinition.Quantities ++ scanQ ds := by
          simp only [scanQ, List.foldr_cons, h1, h2, Bool.and_self, if_true]
        rw [hscan]
        simp only [defStep, h1, h2, if_true]
        rw [quantFold_fst, List.find?_append, optmap_or, Option.or_assoc]
      | false =>
        have hscan : scanQ (d :: ds) = scanQ ds := by
          simp only [scanQ, List.foldr_cons, h1, h2, Bool.and_false, Bool.false_eq_true,
            if_false]
        rw [hscan]
        simp [defStep, h1, h2]
    | false =>
      have hscan : scanQ (d :: ds) = scanQ ds := by
        simp only [scanQ, List.foldr_cons, h1, Bool.false_and, Bool.false_eq_true,
          if_false]
      rw [hscan]
      simp [defStep, h1]

/-- Volume component, analogous to `defFold_fst`. -/
lemma defFold_snd (ds : List IfcRelDefines) (st : Option Int × Option Int) :
    (ds.foldl defStep st).2 =
      st.2.or (((scanQ ds).find? (fun q => q.is_a == "IfcQuantityVolume")).map
        (fun q => q.VolumeValue)) := by
  induction ds generalizing st with
  | nil => simp [scanQ, Option.or_none]
  | cons d ds ih =>
    rw [List.foldl_cons, ih]
    cases h1 : (d.is_a == "IfcRelDefinesByProperties") with
    | true =>
      cases h2 : (d.RelatingPropertyDefinition.is_a == "IfcElementQuantity") with
      | true =>
        have hscan : scanQ (d :: ds) =
            d.RelatingPropertyDefinition.Quantities ++ scanQ ds := by
          simp only [scanQ, List.foldr_cons, h1, h2, Bool.and_self, if_true]
        rw [hscan]
        simp only [defStep, h1, h2, if_true]
        rw [quantFold_snd, List.find?_append, optmap_or, Option.or_assoc]
      | false =>
        have hscan : scanQ (d :: ds) = scanQ ds := by
          simp only [scanQ, List.foldr_cons, h1, h2, Bool.and_false, Bool.false_eq_true,
            if_false]
        rw [hscan]
        simp [defStep, h1, h2]
    | false =>
      have hscan : scanQ (d :: ds) = scanQ ds := by
        simp only [scanQ, List.foldr_cons, h1, Bool.false_and, Bool.false_eq_true,
          if_false]
      rw [hscan]
      simp [defStep, h1]

/-- The pset fold acts componentwise. -/
lemma psetFold_pair (ps : List (String × List (String × Int))) (a v : Option Int) :
    ps.foldl psetStep (a, v) = (ps.foldl psetStepA a, ps.foldl psetStepV v) := by
  induction ps generalizing a v with
  | nil => rfl
  | cons p ps ih =>
    rw [List.foldl_cons, List.foldl_cons, List.foldl_cons]
    by_cases h : pyStartsWith p.1 "Qto_"
    · simp only [psetStep, psetStepA, psetStepV, h, if_true]
      exact ih _ _
    · simp only [psetStep, psetStepA, psetStepV, h, if_false]
      exact ih _ _

/-- A set area value survives the rest of the pset fold. -/
lemma psetFoldA_some (ps : List (String × List (String × Int))) (x : Int) :
    ps.foldl psetStepA (some x) = some x := by
  induction ps with
  | nil => rfl
  | cons p ps ih =>
    rw [List.foldl_cons]
    by_cases h : pyStartsWith p.1 "Qto_" <;> simp [psetStepA, h, ih]

/-- A set volume value survives the rest of the pset fold. -/
lemma psetFoldV_some (ps : List (String × List (String × Int))) (x : Int) :
    ps.foldl psetStepV (some x) = some x := by
  induction ps with
  | nil => rfl
  | cons p ps ih =>
    rw [List.foldl_cons]
    by_cases h : pyStartsWith p.1 "Qto_" <;> simp [psetStepV, h, ih]

/-- Starting unset, the pset fold takes the first `Qto_` pset whose area
probe yields a present value. -/
lemma psetFoldA_none (ps : List (String × List (String × Int))) :
    ps.foldl psetStepA none =
      (((ps.filter (fun p => pyStartsWith p.1 "Qto_")).map
          (fun p => areaProbe p.2)).find? (fun o => o.isSome)).join := by
  induction ps with
  | nil => rfl
  | cons p ps ih =>
    rw [List.foldl_cons]
    by_cases h : pyStartsWith p.1 "Qto_"
    · cases ha : areaProbe p.2 with
      | none => simp [psetStepA, h, ha, List.filter_cons, List.find?, ih]
      | some x =>
        simp [psetStepA, h, ha, List.filter_cons, List.find?, psetFoldA_some]
    · simp [psetStepA, h, List.filter_cons, ih]

/-- Starting unset, the pset fold takes the first `Qto_` pset whose volume
probe yields a present value. -/
lemma psetFoldV_none (ps : List (String × List (String × Int))) :
    ps.foldl psetStepV none =
      (((ps.filter (fun p => pyStartsWith p.1 "Qto_")).map
          (fun p => volumeProbe p.2)).find? (fun o => o.isSome)).join := by
  induction ps with
  | nil => rfl
  | cons p ps ih =>
    rw [List.foldl_cons]
    by_cases h : pyStartsWith p.1 "Qto_"
    · cases ha : volumeProbe p.2 with
      | none => simp [psetStepV, h, ha, List.filter_cons, List.find?, ih]
      | some x =>
        simp [psetStepV, h, ha, List.filter_cons, List.find?, psetFoldV_some]
    · simp [psetStepV, h, List.filter_cons, ih]

/-- The fallback area of the fold, in described form. -/
lemma psetFoldA_eq (e : IfcElement) (a : Option Int) :
    e.psets.foldl psetStepA a = a.or (fallbackAreaDescribed e) := by
  cases a with
  | some x => rw [psetFoldA_some]; rfl
  | none =>
    rw [Option.none_or, psetFoldA_none, fallbackAreaDescribed]
    have hmap : (e.psets.filter (fun p => pyStartsWith p.1 "Qto_")).map
          (fun p => areaProbe p.2) =
        (qtoPsets e).map
          (fun p => probeFirstTruthy p.2 areaProbeKeys "OuterSurfaceArea") := by
      unfold qtoPsets
      exact List.map_congr_left (fun p _ => areaProbe_eq p.2)
    rw [hmap]

/-- The fallback volume of the fold, in described form. -/
lemma psetFoldV_eq (e : IfcElement) (v : Option Int) :
    e.psets.foldl psetStepV v = v.or (fallbackVolumeDescribed e) := by
  cases v with
  | some x => rw [psetFoldV_some]; rfl
  | none =>
    rw [Option.none_or, psetFoldV_none, fallbackVolumeDescribed]
    have hmap : (e.psets.filter (fun p => pyStartsWith p.1 "Qto_")).map
          (fun p => volumeProbe p.2) =
        (qtoPsets e).map
          (fun p => probeFirstTruthy p.2 volumeProbeKeys "GrossVolume") := by
      unfold qtoPsets
      exact List.map_congr_left (fun p _ => volumeProbe_eq p.2)
    rw [hmap]

/-- Full characterisation of the quantity resolver: the primary
first-match values, each falling back — only while still unset — to the
described `Qto_` pset probe. -/
lemma get_quantities_characterized (e : IfcElement) :
    get_ifcElement_quantities e =
      ((method1Area e).or (fallbackAreaDescribed e),
       (method1Volume e).or (fallbackVolumeDescribed e)) := by
  unfold get_ifcElement_quantities
  have h1 : (e.IsDefinedBy.foldl defStep (none, none)).1 = method1Area e := by
    rw [defFold_fst, Option.none_or]; rfl
  have h2 : (e.IsDefinedBy.foldl defStep (none, none)).2 = method1Volume e := by
    rw [defFold_snd, Option.none_or]; rfl
  by_cases hg : ((e.IsDefinedBy.foldl defStep (none, none)).1.isNone ||
      (e.IsDefinedBy.foldl defStep (none, none)).2.isNone) = true
  · simp only [hg, if_true]
    have hpair : e.IsDefinedBy.foldl defStep (none, none) =
        ((e.IsDefinedBy.foldl defStep (none, none)).1,
         (e.IsDefinedBy.foldl defStep (none, none)).2) := rfl
    rw [hpair, psetFold_pair, psetFoldA_eq, psetFoldV_eq, h1, h2]
  · simp only [hg, if_false]
    rw [Bool.or_eq_true, not_or, Bool.not_eq_true, Bool.not_eq_true] at hg
    rcases hg with ⟨ha, hv⟩
    rw [Option.isNone_eq_false_iff, Option.isSome_iff_exists] at ha hv
    rcases ha with ⟨x, hx⟩
    rcases hv with ⟨y, hy⟩
    have hxa : method1Area e = some x := by rw [← h1, hx]
    have hyv : method1Volume e = some y := by rw [← h2, hy]
    rw [hxa, hyv]
    have : e.IsDefinedBy.foldl defStep (none, none) = (some x, some y) := by
      rw [show e.IsDefinedBy.foldl defStep (none, none) =
          ((e.IsDefinedBy.foldl defStep (none, none)).1,
           (e.IsDefinedBy.foldl defStep (none, none)).2) from rfl, hx, hy]
    rw [this]
    simp [Option.or]

/-- Looking up the key just stored finds the stored group. -/
lemma lookupG_upsert_self (gs : List (String × GroupAcc)) (k : String) (g : GroupAcc) :
    lookupG (upsert gs k g) k = some g := by
  induction gs with
  | nil => simp [upsert, lookupG, List.find?]
  | cons p ps ih =>
    by_cases hb : (p.1 == k) = true
    · simp [upsert, hb, lookupG, List.find?]
    · simp only [upsert, hb, Bool.false_eq_true, if_false]
      simp only [lookupG, List.find?, hb] at ih ⊢
      exact ih

/-- Storing under one key leaves the lookup of any other key unchanged. -/
lemma lookupG_upsert_ne (gs : List (String × GroupAcc)) (k k' : String)
    (g : GroupAcc) (hne : k' ≠ k) :
    lookupG (upsert gs k g) k' = lookupG gs k' := by
  have hkk : (k == k') = false := beq_eq_false_iff_ne.mpr (Ne.symm hne)
  induction gs with
  | nil => simp [upsert, lookupG, List.find?, hkk]
  | cons p ps ih =>
    by_cases hb : (p.1 == k) = true
    · have hp : p.1 = k := beq_iff_eq.mp hb
      have hp' : (p.1 == k') = false := by rw [hp]; exact hkk
      simp [upsert, hb, lookupG, List.find?, hkk, hp']
    · simp only [upsert, hb, Bool.false_eq_true, if_false]
      by_cases hb' : (p.1 == k') = true
      · simp [lookupG, List.find?, hb']
      · simp only [lookupG, List.find?, hb', Bool.false_eq_true, if_false] at ih ⊢
        exact ih

/-- Effect of one loop iteration on a lookup. -/
lemma lookup_addElement (gs : List (String × GroupAcc)) (e : IfcElement) (k : String) :
    lookupG (addElement gs e) k =
      if group_name e = k then some (stepGroup ((lookupG gs k).getD {}) e)
      else lookupG gs k := by
  unfold addElement
  by_cases h : group_name e = k
  · rw [if_pos h, ← h, lookupG_upsert_self]
  · rw [if_neg h, lookupG_upsert_ne _ _ _ _ (fun hc => h hc.symm)]

/-- Lookup after the whole element loop: a fold of the per-element step
over exactly the elements filed under the key. -/
lemma lookup_foldl (es : List IfcElement) (gs : List (String × GroupAcc)) (k : String) :
    lookupG (es.foldl addElement gs) k =
      (contrib es k).foldl (fun a e => some (stepGroup (a.getD {}) e)) (lookupG gs k) := by
  induction es generalizing gs with
  | nil => rfl
  | cons e es ih =>
    rw [List.foldl_cons, ih]
    by_cases h : group_name e = k
    · have hb : (group_name e == k) = true := beq_iff_eq.mpr h
      have hf : contrib (e :: es) k = e :: contrib es k := by
        simp [contrib, List.filter_cons, hb]
      rw [hf, List.foldl_cons, lookup_addElement, if_pos h]
    · have hb : (group_name e == k) = false := beq_eq_false_iff_ne.mpr h
      have hf : contrib (e :: es) k = contrib es k := by
        simp [contrib, List.filter_cons, hb]
      rw [hf, lookup_addElement, if_neg h]

/-- A fold of the optional step from a present accumulator. -/
lemma optFold_some (cs : List IfcElement) (g : GroupAcc) :
    cs.foldl (fun a e => some (stepGroup (a.getD {}) e)) (some g) =
      some (cs.foldl stepGroup g) := by
  induction cs generalizing g with
  | nil => rfl
  | cons c cs ih => rw [List.foldl_cons, List.foldl_cons, Option.getD_some, ih]

/-- Lookup in the finished group dictionary. -/
lemma lookup_buildGroups (es : List IfcElement) (k : String) :
    lookupG (buildGroups es) k =
      match contrib es k with
      | [] => none
      | c :: cs => some (cs.foldl stepGroup (stepGroup {} c)) := by
  unfold buildGroups
  rw [lookup_foldl]
  cases hc : contrib es k with
  | nil => rfl
  | cons c cs =>
    rw [List.foldl_cons]
    exact optFold_some cs (stepGroup _ c)

/-- Keys reachable after an upsert. -/
lemma mem_keys_upsert {x : String} (ps : List (String × GroupAcc)) (k : String)
    (g : GroupAcc) (h : x ∈ (upsert ps k g).map Prod.fst) :
    x ∈ ps.map Prod.fst ∨ x = k := by
  induction ps with
  | nil => simp [upsert] at h; exact Or.inr h
  | cons p ps ih =>
    by_cases hb : (p.1 == k) = true
    · simp only [upsert, hb, if_true, List.map_cons, List.mem_cons] at h
      rcases h with rfl | h
      · exact Or.inr rfl
      · exact Or.inl (List.mem_cons.mpr (Or.inr h))
    · simp only [upsert, hb, Bool.false_eq_true, if_false, List.map_cons,
        List.mem_cons] at h
      rcases h with rfl | h
      · exact Or.inl (List.mem_cons.mpr (Or.inl rfl))
      · rcases ih h with h' | h'
        · exact Or.inl (List.mem_cons.mpr (Or.inr h'))
        · exact Or.inr h'

/-- An upsert keeps the keys free of duplicates. -/
lemma nodup_keys_upsert (gs : List (String × GroupAcc)) (k : String) (g : GroupAcc)
    (h : (gs.map Prod.fst).Nodup) : ((upsert gs k g).map Prod.fst).Nodup := by
  induction gs with
  | nil => simp [upsert]
  | cons p ps ih =>
    rw [List.map_cons, List.nodup_cons] at h
    rcases h with ⟨hp, hps⟩
    by_cases hb : (p.1 == k) = true
    · have hk : p.1 = k := beq_iff_eq.mp hb
      simp only [upsert, hb, if_true, List.map_cons, List.nodup_cons]
      exact ⟨hk ▸ hp, hps⟩
    · have hk : p.1 ≠ k := by
        intro hc
        rw [hc] at hb
        simp at hb
      simp only [upsert, hb, Bool.false_eq_true, if_false, List.map_cons,
        List.nodup_cons]
      refine ⟨?_, ih hps⟩
      intro hc
      rcases mem_keys_upsert ps k g hc with h' | h'
      · exact hp h'
      · exact hk h'

/-- The group dictionary's keys are free of duplicates. -/
lemma nodup_keys_buildGroups (es : List IfcElement) :
    ((buildGroups es).map Prod.fst).Nodup := by
  have h : ∀ gs : List (String × GroupAcc), (gs.map Prod.fst).Nodup →
      ((es.foldl addElement gs).map Prod.fst).Nodup := by
    induction es with
    | nil => intro gs h; exact h
    | cons e es ih =>
      intro gs h
      rw [List.foldl_cons]
      exact ih _ (nodup_keys_upsert _ _ _ h)
  exact h [] (by simp)

/-- A successful lookup comes from an entry of the list. -/
lemma mem_of_lookupG {gs : List (String × GroupAcc)} {k : String} {a : GroupAcc}
    (h : lookupG gs k = some a) : (k, a) ∈ gs := by
  induction gs with
  | nil => simp [lookupG, List.find?] at h
  | cons p ps ih =>
    by_cases hb : (p.1 == k) = true
    · have hk : p.1 = k := beq_iff_eq.mp hb
      have hv : p.2 = a := by
        simp only [lookupG, List.find?, hb, Option.map_some] at h
        exact Option.some_injective _ h
      refine List.mem_cons.mpr (Or.inl ?_)
      rw [← hk, ← hv]
    · simp only [lookupG, List.find?, hb] at h
      exact List.mem_cons.mpr (Or.inr (ih h))

/-- With duplicate-free keys, every entry is found by lookup. -/
lemma lookupG_of_mem {gs : List (String × GroupAcc)} {k : String} {a : GroupAcc}
    (h : (k, a) ∈ gs) (hn : (gs.map Prod.fst).Nodup) : lookupG gs k = some a := by
  induction gs with
  | nil => cases h
  | cons p ps ih =>
    rw [List.map_cons, List.nodup_cons] at hn
    rcases hn with ⟨hp, hps⟩
    rcases List.mem_cons.mp h with heq | hmem
    · rw [← heq]
      simp [lookupG, List.find?]
    · have hk : k ∈ ps.map Prod.fst := List.mem_map.mpr ⟨(k, a), hmem, rfl⟩
      have hne : (p.1 == k) = false := by
        refine beq_eq_false_iff_ne.mpr ?_
        intro hc
        exact hp (hc ▸ hk)
      simp only [lookupG, List.find?, hne]
      exact ih hmem hps

/-- The loop body stamps the group with the element's group name. -/
lemma stepGroup_materialGroup (g : GroupAcc) (e : IfcElement) :
    (stepGroup g e).materialGroup = group_name e := by
  cases h1 : (get_ifcElement_quantities e).1 <;>
    cases h2 : (get_ifcElement_quantities e).2 <;>
      simp [stepGroup, h1, h2, group_name]

/-- The loop body increments the element count by one. -/
lemma stepGroup_elementCount (g : GroupAcc) (e : IfcElement) :
    (stepGroup g e).elementCount = g.elementCount + 1 := by
  cases h1 : (get_ifcElement_quantities e).1 <;>
    cases h2 : (get_ifcElement_quantities e).2 <;>
      simp [stepGroup, h1, h2]

/-- The loop body appends the element's identifier. -/
lemma stepGroup_elementIds (g : GroupAcc) (e : IfcElement) :
    (stepGroup g e).elementIds = g.elementIds ++ [e.GlobalId] := by
  cases h1 : (get_ifcElement_quantities e).1 <;>
    cases h2 : (get_ifcElement_quantities e).2 <;>
      simp [stepGroup, h1, h2]

/-- The loop body adds the element's area contribution (nothing if the
area is absent). -/
lemma stepGroup_totalArea (g : GroupAcc) (e : IfcElement) :
    (stepGroup g e).totalArea = g.totalArea + areaOf e := by
  cases h1 : (get_ifcElement_quantities e).1 <;>
    cases h2 : (get_ifcElement_quantities e).2 <;>
      simp [stepGroup, h1, h2, areaOf]

/-- The loop body adds the element's volume contribution. -/
lemma stepGroup_totalVolume (g : GroupAcc) (e : IfcElement) :
    (stepGroup g e).totalVolume = g.totalVolume + volumeOf e := by
  cases h1 : (get_ifcElement_quantities e).1 <;>
    cases h2 : (get_ifcElement_quantities e).2 <;>
      simp [stepGroup, h1, h2, volumeOf]

/-- The loop body sets the missing flag exactly on an absent area or
volume, and never clears it. -/
lemma stepGroup_missing (g : GroupAcc) (e : IfcElement) :
    (stepGroup g e).missingQuantities =
      (g.missingQuantities || ((get_ifcElement_quantities e).1.isNone ||
        (get_ifcElement_quantities e).2.isNone)) := by
  cases h1 : (get_ifcElement_quantities e).1 <;>
    cases h2 : (get_ifcElement_quantities e).2 <;>
      simp [stepGroup, h1, h2]

/-- Element count over a run of loop iterations. -/
lemma foldStep_count (cs : List IfcElement) (g : GroupAcc) :
    (cs.foldl stepGroup g).elementCount = g.elementCount + cs.length := by
  induction cs generalizing g with
  | nil => simp
  | cons c cs ih =>
    rw [List.foldl_cons, ih, stepGroup_elementCount, List.length_cons]
    omega

/-- Identifier list over a run of loop iterations. -/
lemma foldStep_ids (cs : List IfcElement) (g : GroupAcc) :
    (cs.foldl stepGroup g).elementIds =
      g.elementIds ++ cs.map (fun e => e.GlobalId) := by
  induction cs generalizing g with
  | nil => simp
  | cons c cs ih =>
    rw [List.foldl_cons, ih, stepGroup_elementIds, List.map_cons]
    simp

/-- Area sum over a run of loop iterations. -/
lemma foldStep_area (cs : List IfcElement) (g : GroupAcc) :
    (cs.foldl stepGroup g).totalArea = g.totalArea + (cs.map areaOf).sum := by
  induction cs generalizing g with
  | nil => simp
  | cons c cs ih =>
    rw [List.foldl_cons, ih, stepGroup_totalArea, List.map_cons, List.sum_cons]
    ring

/-- Volume sum over a run of loop iterations. -/
lemma foldStep_volume (cs : List IfcElement) (g : GroupAcc) :
    (cs.foldl stepGroup g).totalVolume = g.totalVolume + (cs.map volumeOf).sum := by
  induction cs generalizing g with
  | nil => simp
  | cons c cs ih =>
    rw [List.foldl_cons, ih, stepGroup_totalVolume, List.map_cons, List.sum_cons]
    ring

/-- Missing flag over a run of loop iterations. -/
lemma foldStep_missing (cs : List IfcElement) (g : GroupAcc) :
    (cs.foldl stepGroup g).missingQuantities =
      (g.missingQuantities || cs.any (fun e =>
        (get_ifcElement_quantities e).1.isNone ||
        (get_ifcElement_quantities e).2.isNone)) := by
  induction cs generalizing g with
  | nil => simp
  | cons c cs ih =>
    rw [List.foldl_cons, ih, stepGroup_missing, List.any_cons]
    cases g.missingQuantities <;> simp [Bool.or_assoc]

/-- Group name over a run of loop iterations filed under one key. -/
lemma foldStep_name (cs : List IfcElement) (k : String)
    (h : ∀ c ∈ cs, group_name c = k) (g : GroupAcc) (hg : g.materialGroup = k) :
    (cs.foldl stepGroup g).materialGroup = k := by
  induction cs generalizing g with
  | nil => exact hg
  | cons c cs ih =>
    rw [List.foldl_cons]
    refine ih (fun x hx => h x (List.mem_cons.mpr (Or.inr hx))) _ ?_
    rw [stepGroup_materialGroup]
    exact h c (List.mem_cons.mpr (Or.inl rfl))

/-- Elements filed under a key indeed carry that group name. -/
lemma group_name_of_mem_contrib {es : List IfcElement} {k : String} {c : IfcElement}
    (h : c ∈ contrib es k) : group_name c = k := by
  have := (List.mem_filter.mp h).2
  exact beq_iff_eq.mp this

/-- Every entry of the group dictionary is exactly the fold of the loop
body over the elements filed under its key. -/
lemma entry_fields {es : List IfcElement} {k : String} {acc : GroupAcc}
    (h : (k, acc) ∈ buildGroups es) :
    contrib es k ≠ [] ∧
    acc.materialGroup = k ∧
    acc.elementCount = (contrib es k).length ∧
    acc.elementIds = (contrib es k).map (fun e => e.GlobalId) ∧
    acc.totalArea = ((contrib es k).map areaOf).sum ∧
    acc.totalVolume = ((contrib es k).map volumeOf).sum ∧
    acc.missingQuantities = (contrib es k).any (fun e =>
      (get_ifcElement_quantities e).1.isNone ||
      (get_ifcElement_quantities e).2.isNone) := by
  have hl : lookupG (buildGroups es) k = some acc :=
    lookupG_of_mem h (nodup_keys_buildGroups es)
  rw [lookup_buildGroups] at hl
  cases hc : contrib es k with
  | nil => rw [hc] at hl; cases hl
  | cons c cs =>
    rw [hc] at hl
    have hacc : acc = cs.foldl stepGroup (stepGroup {} c) :=
      (Option.some_injective _ hl).symm
    have hcmem : ∀ x ∈ cs, group_name x = k := by
      intro x hx
      exact group_name_of_mem_contrib (by rw [hc]; exact List.mem_cons.mpr (Or.inr hx))
    have hcg : group_name c = k :=
      group_name_of_mem_contrib (by rw [hc]; exact List.mem_cons.mpr (Or.inl rfl))
    refine ⟨by simp, ?_, ?_, ?_, ?_, ?_, ?_⟩
    · rw [hacc]
      exact foldStep_name cs k hcmem _ (by rw [stepGroup_materialGroup]; exact hcg)
    · rw [hacc, foldStep_count, stepGroup_elementCount]
      simp [Nat.add_comm]
    · rw [hacc, foldStep_ids, stepGroup_elementIds]
      simp
    · rw [hacc, foldStep_area, stepGroup_totalArea, List.map_cons, List.sum_cons]
      simp
    · rw [hacc, foldStep_volume, stepGroup_totalVolume, List.map_cons, List.sum_cons]
      simp
    · rw [hacc, foldStep_missing, stepGroup_missing, List.any_cons]
      simp

/-- A key with at least one filed element has an entry in the dictionary. -/
lemma entry_exists {es : List IfcElement} {k : String} (h : contrib es k ≠ []) :
    ∃ acc, (k, acc) ∈ buildGroups es := by
  cases hc : contrib es k with
  | nil => exact absurd hc h
  | cons c cs =>
    refine ⟨cs.foldl stepGroup (stepGroup {} c), mem_of_lookupG ?_⟩
    rw [lookup_buildGroups, hc]

/-- Result membership: exactly the finalised dictionary entries. -/
lemma mem_process_iff {es : List IfcElement} {d : Int} {g : MaterialGroupOut} :
    g ∈ process_ifc_materials es d ↔
      ∃ p ∈ buildGroups es, g = finalize d p.2 := by
  unfold process_ifc_materials
  rw [mem_pySort, List.mem_map]
  constructor
  · rintro ⟨p, hp, rfl⟩
    exact ⟨p, hp, rfl⟩
  · rintro ⟨p, hp, rfl⟩
    exact ⟨p, hp, rfl⟩

/-- Finalisation does not change the identifier list. -/
lemma finalize_elementIds (d : Int) (g : GroupAcc) :
    (finalize d g).elementIds = g.elementIds := rfl

/-- Finalisation does not change the group name. -/
lemma finalize_materialGroup (d : Int) (g : GroupAcc) :
    (finalize d g).materialGroup = g.materialGroup := rfl

/-- Finalisation does not change the element count. -/
lemma finalize_elementCount (d : Int) (g : GroupAcc) :
    (finalize d g).elementCount = g.elementCount := rfl

/-- Finalisation does not change the missing flag. -/
lemma finalize_missing (d : Int) (g : GroupAcc) :
    (finalize d g).missingQuantities = g.missingQuantities := rfl

/-- The reported area of a finalised group. -/
lemma finalize_totalArea (d : Int) (g : GroupAcc) :
    (finalize d g).totalArea = if g.totalArea > 0 then some g.totalArea else none := rfl

/-- The reported volume of a finalised group. -/
lemma finalize_totalVolume (d : Int) (g : GroupAcc) :
    (finalize d g).totalVolume =
      if g.totalVolume > 0 then some g.totalVolume else none := rfl

/-- The reported weight is the reported volume scaled by the density. -/
lemma finalize_totalWeight (d : Int) (g : GroupAcc) :
    (finalize d g).totalWeight = (finalize d g).totalVolume.map (fun v => v * d) := by
  by_cases h : g.totalVolume > 0 <;> simp [finalize, h]

/-- One loop iteration adds the element's identifier to exactly one group. -/
lemma sumIdCounts_addElement (gs : List (String × GroupAcc)) (e : IfcElement)
    (s : String) :
    sumIdCounts (addElement gs e) s =
      sumIdCounts gs s + (if e.GlobalId == s then 1 else 0) := by
  induction gs with
  | nil =>
    have h0 : addElement [] e = [(group_name e, stepGroup {} e)] := rfl
    rw [h0]
    simp [sumIdCounts, stepGroup_elementIds, List.count_cons, List.count_nil]
  | cons p ps ih =>
    by_cases hb : (p.1 == group_name e) = true
    · have hlook : lookupG (p :: ps) (group_name e) = some p.2 := by
        simp [lookupG, List.find?, hb]
      have hup : addElement (p :: ps) e =
          (group_name e, stepGroup p.2 e) :: ps := by
        unfold addElement
        rw [hlook]
        simp [upsert, hb]
      rw [hup]
      simp only [sumIdCounts, List.map_cons, List.sum_cons,
        stepGroup_elementIds, List.count_append, List.count_cons, List.count_nil]
      omega
    · have hlook : lookupG (p :: ps) (group_name e) = lookupG ps (group_name e) := by
        simp [lookupG, List.find?, hb]
      have hup : addElement (p :: ps) e = p :: addElement ps e := by
        unfold addElement
        rw [hlook]
        simp [upsert, hb]
      rw [hup]
      simp only [sumIdCounts, List.map_cons, List.sum_cons] at ih ⊢
      omega

/-- The element loop files each identifier occurrence exactly once. -/
lemma sumIdCounts_foldl (es : List IfcElement) (gs : List (String × GroupAcc))
    (s : String) :
    sumIdCounts (es.foldl addElement gs) s =
      sumIdCounts gs s + (es.map (fun e => e.GlobalId)).count s := by
  induction es generalizing gs with
  | nil => simp [List.count_nil]
  | cons e es ih =>
    rw [List.foldl_cons, ih, sumIdCounts_addElement, List.map_cons, List.count_cons]
    omega

/-- The foldlM of the element loop either completes with the pure fold
(no element raises) or propagates the first exception. -/
lemma foldlM_addElementE (es : List IfcElement) (gs : List (String × GroupAcc)) :
    es.foldlM addElementE gs =
      if es.all (fun e => !e.raises) then Except.ok (es.foldl addElement gs)
      else Except.error () := by
  induction es generalizing gs with
  | nil => rfl
  | cons e es ih =>
    rw [List.foldlM_cons]
    cases hr : e.raises
    · have hok : addElementE gs e = Except.ok (addElement gs e) := by
        simp [addElementE, hr]
      rw [hok]
      show es.foldlM addElementE (addElement gs e) = _
      rw [ih]
      simp [List.all_cons, hr]
    · have herr : addElementE gs e = (Except.error () : Except Unit (List (String × GroupAcc))) := by
        simp [addElementE, hr]
      rw [herr]
      show (Except.error () : Except Unit (List (String × GroupAcc))) = _
      simp [List.all_cons, hr]

/-- C1: the claim states that aggregation composed with the stored skip
set excludes every skipped element.  The code never consults the skip
set: with express id `42` recorded as skipped for the file, the sole
element (GlobalId `"W1"`, express id `42`) still contributes fully to its
group. -/
theorem C1_skip_set_not_consulted :
    get_skipped_ids skipMeta "f1" = [42] ∧
    (process_ifc_materials [skippedWall] 2400).map
      (fun g => (g.elementCount, g.elementIds)) = [(1, ["W1"])] := by
  decide

/-- C2 counterexample: an element with two attached materials and
area `10`, volume `2` lands in exactly one group (keyed by the single
resolved material name, here `"Concrete"`) which receives its full
quantities; no `"Steel"` group exists to receive it, refuting the claimed
fan-out to N groups. -/
theorem C2_multi_material_lands_in_one_group :
    twoMaterialElem.materials.length = 2 ∧
    (process_ifc_materials [twoMaterialElem] 2400).length = 1 ∧
    (process_ifc_materials [twoMaterialElem] 2400).map
      (fun g => (g.materialGroup, g.elementCount, g.totalArea, g.totalVolume)) =
      [("Concrete", 1, some 10, some 2)] ∧
    (process_ifc_materials [twoMaterialElem] 2400).all
      (fun g => g.materialGroup != "Steel") = true := by
  decide

/-- C2 (amended): every element contributes to exactly one group — across
the whole returned summary each identifier occurs exactly as often as in
the element list, so an element is never fanned out to one group per
attached material, and its quantities go in full to its one group. -/
theorem C2_each_element_counted_once (es : List IfcElement) (d : Int) (s : String) :
    totalIdOccurrences (process_ifc_materials es d) s =
      (es.map (fun e => e.GlobalId)).count s := by
  unfold process_ifc_materials totalIdOccurrences
  have hperm := perm_pySort ((buildGroups es).map (fun p => finalize d p.2))
  rw [(hperm.map (fun g => g.elementIds.count s)).sum_eq, List.map_map]
  have hmap : ((buildGroups es).map
        ((fun g => g.elementIds.count s) ∘ (fun p => finalize d p.2))).sum =
      sumIdCounts (buildGroups es) s := by
    unfold sumIdCounts
    congr 1
  rw [hmap]
  unfold buildGroups
  rw [sumIdCounts_foldl]
  simp [sumIdCounts]

/-- C3 counterexample: with a healthy first element and a second element
whose model access raises, the aggregation does not complete with a
best-effort result — the exception propagates and the whole call fails. -/
theorem C3_element_exception_aborts_run :
    process_ifc_materialsE [wallA, raisingElem] 2400 = Except.error () := rfl

/-- C3 (amended): a per-element exception is not contained: the source
wraps no per-element work in try/except, so the call returns the
aggregation result exactly when no element access raises, and otherwise
propagates the exception to the caller. -/
theorem C3_exception_propagates (es : List IfcElement) (d : Int) :
    process_ifc_materialsE es d =
      if es.all (fun e => !e.raises) then
        Except.ok (process_ifc_materials es d)
      else Except.error () := by
  unfold process_ifc_materialsE
  rw [foldlM_addElementE]
  by_cases h : es.all (fun e => !e.raises) = true
  · rw [if_pos h, if_pos h]
    rfl
  · rw [if_neg h, if_neg h]
    rfl

/-- C4 counterexample: with a first `Qto_` pset holding only a present
falsy `OuterSurfaceArea` of `0` and a later pset holding `NetArea = 5`,
the resolver returns area `0` — the claimed probing rule ("first present
non-falsy value") would instead select `5`. -/
theorem C4_falsy_probe_value_taken :
    get_ifcElement_quantities falsyProbeElem = (some 0, none) ∧
    specAreaFallback falsyProbeElem = some 5 ∧
    (some (0 : Int)) ≠ some 5 := by
  decide

/-- C4 (amended): the resolver takes the first area-typed and the first
volume-typed structured quantity without overwriting, and only for values
still unset probes the `Qto_` psets; within a pset the probe is the first
present non-falsy value, except that when every probed key is absent or
falsy it degrades to the raw last lookup (`OuterSurfaceArea` for area,
`GrossVolume` for volume) — possibly a present falsy `0` — and the first
pset whose probe is present, even as `0`, blocks all later psets. -/
theorem C4_quantity_resolution_characterized (e : IfcElement) :
    get_ifcElement_quantities e =
      ((method1Area e).or (fallbackAreaDescribed e),
       (method1Volume e).or (fallbackVolumeDescribed e)) :=
  get_quantities_characterized e

/-- C5 counterexample: a group whose accumulated area sum is `-1` — not
exactly `0` — is still reported with a null `totalArea`, because the code
tests `> 0` rather than `= 0`. -/
theorem C5_negative_sum_reported_null :
    ((buildGroups [negAreaElem]).map (fun p => p.2.totalArea)) = [-1] ∧
    (process_ifc_materials [negAreaElem] 2400).map (fun g => g.totalArea) = [none] ∧
    (-1 : Int) ≠ 0 := by
  decide

/-- C5 (amended): for every group of the result, `totalArea` is null
exactly when the accumulated area sum is not strictly positive (which for
non-negative inputs coincides with being exactly `0`), likewise for
volume, and `totalWeight` equals `totalVolume * density` exactly when
`totalVolume` is non-null and is null otherwise. -/
theorem C5_null_iff_nonpositive (es : List IfcElement) (d : Int)
    (g : MaterialGroupOut) (hg : g ∈ process_ifc_materials es d) :
    ∃ p ∈ buildGroups es, g = finalize d p.2 ∧
      (g.totalArea = none ↔ ¬ 0 < p.2.totalArea) ∧
      (g.totalVolume = none ↔ ¬ 0 < p.2.totalVolume) ∧
      g.totalWeight = g.totalVolume.map (fun v => v * d) := by
  rcases mem_process_iff.mp hg with ⟨p, hp, rfl⟩
  refine ⟨p, hp, rfl, ?_, ?_, finalize_totalWeight d p.2⟩
  · rw [finalize_totalArea]
    by_cases h : p.2.totalArea > 0 <;> simp [h]
  · rw [finalize_totalVolume]
    by_cases h : p.2.totalVolume > 0 <;> simp [h]

/-- C5 witness: the amended statement applied to the negative-area run. -/
theorem C5_null_iff_nonpositive_witness :
    ∃ p ∈ buildGroups [negAreaElem], negAreaGroup = finalize 2400 p.2 ∧
      (negAreaGroup.totalArea = none ↔ ¬ 0 < p.2.totalArea) ∧
      (negAreaGroup.totalVolume = none ↔ ¬ 0 < p.2.totalVolume) ∧
      negAreaGroup.totalWeight = negAreaGroup.totalVolume.map (fun v => v * 2400) :=
  C5_null_iff_nonpositive [negAreaElem] 2400 negAreaGroup (by decide)

/-- C6: the returned list is sorted ascending by the Python key tuple
`(hasMaterial, groupKey, elementClass)` under ordinal string comparison;
in particular material-bearing groups (`hasMaterial = 0`) precede
class-fallback groups (`hasMaterial = 1`) and each tier is ordered by
group key. -/
theorem C6_result_sorted (es : List IfcElement) (d : Int) :
    (process_ifc_materials es d).Pairwise (fun a b => keyLe a b = true) := by
  unfold process_ifc_materials
  exact pairwise_pySort _

/-- C7 counterexample: for an element with no resolvable material name
whose material carries `Category = "Masonry"`, the claimed fallback label
is `"Masonry"`, but the code falls back to the element class `"IfcWall"`;
the `Category` attribute is never consulted. -/
theorem C7_category_not_consulted :
    specFallbackLabel categoryElem = "Masonry" ∧
    get_element_group_key categoryElem = (1, "IfcWall", "IfcWall") ∧
    ("IfcWall" : String) ≠ "Masonry" := by
  decide

/-- C7 (amended): for every element with no resolvable (truthy) material
name, the fallback group label is the element's type/class tag when
truthy and otherwise the literal `"Unassigned"`; the material's
`Category` attribute plays no part. -/
theorem C7_fallback_is_class_or_unassigned (e : IfcElement)
    (h : truthyS e.materialName = false) :
    get_element_group_key e =
      (1, (if e.is_a != "" then e.is_a else "Unassigned"),
          (if e.is_a != "" then e.is_a else "Unassigned")) := by
  unfold get_element_group_key
  simp [h]

/-- C7 witness: the amended fallback rule applied to the element whose
material has a `Category`. -/
theorem C7_fallback_witness :
    get_element_group_key categoryElem =
      (1, (if categoryElem.is_a != "" then categoryElem.is_a else "Unassigned"),
          (if categoryElem.is_a != "" then categoryElem.is_a else "Unassigned")) :=
  C7_fallback_is_class_or_unassigned categoryElem (by decide)

/-- C8: an element whose resolved area or volume is absent sets its
group's missing-quantities flag; every present value is added to the
group's running totals (each accumulated total is the sum of the present
contributions of the group's elements); and concretely an element with no
resolvable area and a resolvable volume of `5` yields a group with the
flag set, a null `totalArea`, and `totalVolume = 5 ≥ 5`. -/
theorem C8_missing_flag_and_totals :
    (∀ (es : List IfcElement) (d : Int) (e : IfcElement), e ∈ es →
      ((get_ifcElement_quantities e).1 = none ∨
       (get_ifcElement_quantities e).2 = none) →
      ∃ g, g ∈ process_ifc_materials es d ∧ g.materialGroup = group_name e ∧
        g.missingQuantities = true) ∧
    (∀ (es : List IfcElement) (k : String) (acc : GroupAcc),
      (k, acc) ∈ buildGroups es →
      acc.totalArea = ((contrib es k).map areaOf).sum ∧
      acc.totalVolume = ((contrib es k).map volumeOf).sum) ∧
    ((process_ifc_materials [volOnlyElem] 2400).map
      (fun g => (g.missingQuantities, g.totalArea, g.totalVolume)) =
      [(true, none, some 5)] ∧ (5 : Int) ≥ 5) := by
  refine ⟨?_, ?_, by decide⟩
  · intro es d e he hq
    have hmem : e ∈ contrib es (group_name e) :=
      List.mem_filter.mpr ⟨he, beq_self_eq_true _⟩
    have hc : contrib es (group_name e) ≠ [] := by
      intro h0
      rw [h0] at hmem
      cases hmem
    rcases entry_exists hc with ⟨acc, hacc⟩
    rcases entry_fields hacc with ⟨-, hname, -, -, -, -, hmiss⟩
    refine ⟨finalize d acc,
      mem_process_iff.mpr ⟨(group_name e, acc), hacc, rfl⟩, ?_, ?_⟩
    · rw [finalize_materialGroup, hname]
    · rw [finalize_missing, hmiss]
      apply List.any_eq_true.mpr
      refine ⟨e, hmem, ?_⟩
      rcases hq with h | h <;> simp [h]
  · intro es k acc h
    rcases entry_fields h with ⟨-, -, -, -, ha, hv, -⟩
    exact ⟨ha, hv⟩

/-- C8 witness: the missing-flag clause applied to the run over the
volume-only element. -/
theorem C8_missing_flag_witness :
    ∃ g, g ∈ process_ifc_materials [volOnlyElem] 2400 ∧
      g.materialGroup = group_name volOnlyElem ∧ g.missingQuantities = true :=
  C8_missing_flag_and_totals.1 [volOnlyElem] 2400 volOnlyElem (by decide)
    (Or.inl (by decide))

/-- C9: every returned group has `elementCount` equal to the length of its
`elementIds` and both at least `1`: the engine never emits an empty group,
and count and identifier list move together. -/
theorem C9_count_matches_ids (es : List IfcElement) (d : Int)
    (g : MaterialGroupOut) (hg : g ∈ process_ifc_materials es d) :
    g.elementCount = g.elementIds.length ∧ 1 ≤ g.elementCount := by
  rcases mem_process_iff.mp hg with ⟨⟨k, acc⟩, hp, rfl⟩
  rcases entry_fields hp with ⟨hne, -, hcount, hids, -, -, -⟩
  constructor
  · rw [finalize_elementCount, finalize_elementIds, hcount, hids, List.length_map]
  · rw [finalize_elementCount, hcount]
    cases hc : contrib es k with
    | nil => exact absurd hc hne
    | cons c cs => simp

/-- C9 witness: the invariant applied to the run over the bare wall. -/
theorem C9_count_matches_ids_witness :
    wallAGroup.elementCount = wallAGroup.elementIds.length ∧
      1 ≤ wallAGroup.elementCount :=
  C9_count_matches_ids [wallA] 2400 wallAGroup (by decide)

/-- C10: a group all of whose contributing elements resolve both
quantities as present zeros reports null totals while its
missing-quantities flag stays false: a zero-valued contribution folds
into "absent" for the reported total without triggering the flag. -/
theorem C10_zero_folds_to_null (es : List IfcElement) (d : Int)
    (g : MaterialGroupOut) (hg : g ∈ process_ifc_materials es d)
    (hz : ∀ e ∈ es, group_name e = g.materialGroup →
      (get_ifcElement_quantities e).1 = some 0 ∧
      (get_ifcElement_quantities e).2 = some 0) :
    g.totalArea = none ∧ g.totalVolume = none ∧ g.missingQuantities = false := by
  rcases mem_process_iff.mp hg with ⟨⟨k, acc⟩, hp, rfl⟩
  rcases entry_fields hp with ⟨-, hname, -, -, ha, hv, hmiss⟩
  have hgname : (finalize d acc).materialGroup = k := by
    rw [finalize_materialGroup, hname]
  have hz' : ∀ e ∈ contrib es k,
      (get_ifcElement_quantities e).1 = some 0 ∧
      (get_ifcElement_quantities e).2 = some 0 := by
    intro e hef
    exact hz e (List.mem_filter.mp hef).1
      (by rw [group_name_of_mem_contrib hef, hgname])
  have hsa : ((contrib es k).map areaOf).sum = 0 := by
    apply List.sum_eq_zero
    intro x hx
    rcases List.mem_map.mp hx with ⟨e, hef, rfl⟩
    unfold areaOf
    rw [(hz' e hef).1]
    rfl
  have hsv : ((contrib es k).map volumeOf).sum = 0 := by
    apply List.sum_eq_zero
    intro x hx
    rcases List.mem_map.mp hx with ⟨e, hef, rfl⟩
    unfold volumeOf
    rw [(hz' e hef).2]
    rfl
  refine ⟨?_, ?_, ?_⟩
  · rw [finalize_totalArea, ha, hsa]
    simp
  · rw [finalize_totalVolume, hv, hsv]
    simp
  · rw [finalize_missing, hmiss]
    apply List.any_eq_false.mpr
    intro e hef
    simp [(hz' e hef).1, (hz' e hef).2]

/-- C10 witness: the zero-folding rule applied to the run over the
element with zero-valued present quantities. -/
theorem C10_zero_folds_to_null_witness :
    zeroQuantGroup.totalArea = none ∧ zeroQuantGroup.totalVolume = none ∧
      zeroQuantGroup.missingQuantities = false :=
  C10_zero_folds_to_null [zeroQuantElem] 2400 zeroQuantGroup (by decide)
    (by
      intro e he hk
      rw [List.mem_singleton] at he
      subst he
      exact ⟨by decide, by decide⟩)
